import Mathlib

/-!
Verification of the fixed-width transaction parsing and aggregation pipeline
(`main.py`).  The pipeline is embedded shallowly:

* A pandas `DataFrame` is modelled column-orientedly as `Table`, an ordered
  association list from column name to the list of cell values.  A cell is
  either a string (what the parser produces), a number (what `to_numeric`
  produces; numerics are modelled over `Int`), or `null` (Python `None`,
  produced by `combine_column_values` on failure).
* `input_text_to_df` embeds the fixed-width parser (`main.py` lines 30-47):
  the input is split on the newline character (Python `text.split("\n")`,
  which yields `[""]` on empty input), and each line is sliced by a running
  cursor over the configured field widths, each slice clamped to the line's
  end and whitespace-trimmed.  String primitives (`split`, slice, `strip`,
  `join`, `int` parsing) are written as structural recursions over the
  character list so that concrete runs reduce inside the kernel.
* `calculate_total_transaction` embeds the aggregator (`main.py` lines
  91-118).  Column assignment `df[c] = v` is `dfSetCol` (overwrite in place
  if the name exists, else append).  `to_numeric` is strict: any cell that
  does not parse as a number makes the whole conversion fail, and the
  surrounding `try/except` is modelled by the `Option` result (`none` =
  the Python function logs and returns `None`, emitting nothing).
  `combine_column_values` (lines 78-88) catches its own failures per row
  and yields `null`.  `groupby(['product_info','client_info'])` keeps only
  the rows whose two key cells are strings (pandas drops null keys);
  group order is modelled as first-seen, which is immaterial to the
  properties proved here (pandas sorts keys).
* The grouping wiring of `main` (`main.py` lines 170-174) is `main_grouping`;
  note line 171 reads the *client* grouping-field list for the product
  grouping.
-/

/-- A cell of a DataFrame: a string value, a numeric value, or Python `None`. -/
inductive CellVal where
  | str : String → CellVal
  | int : Int → CellVal
  | null : CellVal
deriving DecidableEq, Repr

/-- A DataFrame, column-oriented: ordered list of (column name, cell list). -/
abbrev Table := List (String × List CellVal)

/-- Python `text.split("\n")` on the character list: `[]` maps to one empty
line, mirroring `"".split("\n") == [""]`. -/
def splitNLChars : List Char → List (List Char)
  | [] => [[]]
  | c :: rest =>
    if c = '\n' then [] :: splitNLChars rest
    else
      match splitNLChars rest with
      | [] => [[c]]
      | l :: ls => (c :: l) :: ls

/-- Python `text.split("\n")`. -/
def splitNL (s : String) : List String :=
  (splitNLChars s.data).map String.mk

/-- Python slicing `s[pos:pos+len]`: clamped, never raises. -/
def strSlice (s : String) (pos len : Nat) : String :=
  String.mk ((s.data.drop pos).take len)

/-- Python `str.strip()` on a character list. -/
def trimChars (cs : List Char) : List Char :=
  (((cs.dropWhile Char.isWhitespace).reverse).dropWhile Char.isWhitespace).reverse

/-- Python `str.strip()`. -/
def strTrim (s : String) : String :=
  String.mk (trimChars s.data)

/-- Inner loops of `input_text_to_df` (`main.py` lines 38-45): for each field
of the layout, in order, slice every line at the running cursor position by
the field's width, trim, and collect the column; then advance the cursor by
the full width.  (The Python code iterates lines outermost and appends to a
per-name dict entry; for a layout with distinct names, which a Python dict
guarantees, this column-at-a-time formulation builds the same table.) -/
def parseCols (lines : List String) : List (String × Nat) → Nat → Table
  | [], _ => []
  | (name, len) :: rest, pos =>
    (name, lines.map (fun line => CellVal.str (strTrim (strSlice line pos len))))
      :: parseCols lines rest (pos + len)

/-- `input_text_to_df` (`main.py` lines 30-47). -/
def input_text_to_df (text : String) (field_configuration : List (String × Nat)) : Table :=
  parseCols (splitNL text) field_configuration 0

/-- Strict decimal digit-string parse: nonempty all-digit list, else failure. -/
def digitsToNat (cs : List Char) : Option Nat :=
  match cs with
  | [] => Option.none
  | _ =>
    if cs.all Char.isDigit then
      some (cs.foldl (fun acc c => acc * 10 + (c.toNat - '0'.toNat)) 0)
    else Option.none

/-- Strict numeric parse of one string, as `pandas.to_numeric` applies to a
single value (numerics modelled over `Int`): optional sign then digits. -/
def parseIntStr (s : String) : Option Int :=
  match s.data with
  | '-' :: rest => (digitsToNat rest).map (fun n => -(n : Int))
  | '+' :: rest => (digitsToNat rest).map (fun n => (n : Int))
  | cs => (digitsToNat cs).map (fun n => (n : Int))

/-- Numeric conversion of one cell: strings parse strictly, numbers pass
through, `null` fails (the parser only ever produces string cells). -/
def to_numeric_cell : CellVal → Option Int
  | CellVal.str s => parseIntStr s
  | CellVal.int n => some n
  | CellVal.null => Option.none

/-- All-or-nothing traversal, written as a structural recursion. -/
def optMapList (f : α → Option β) : List α → Option (List β)
  | [] => some []
  | a :: as =>
    match f a, optMapList f as with
    | some b, some bs => some (b :: bs)
    | _, _ => Option.none

/-- `pandas.to_numeric` on a whole column: fails if any cell fails. -/
def to_numeric_col (vs : List CellVal) : Option (List CellVal) :=
  (optMapList to_numeric_cell vs).map (List.map CellVal.int)

/-- `df[name]` as a lookup: the first column with that name. -/
def dfGetCol (t : Table) (name : String) : Option (List CellVal) :=
  ((t : List (String × List CellVal)).find? (fun c => c.1 == name)).map (fun c => c.2)

/-- `df[name]`, defaulting to the empty column when absent. -/
def colOrNil (t : Table) (name : String) : List CellVal :=
  (dfGetCol t name).getD []

/-- `df[name] = vs`: overwrite the column in place if present, else append. -/
def dfSetCol (t : Table) (name : String) (vs : List CellVal) : Table :=
  if (t : List (String × List CellVal)).any (fun c => c.1 == name) then
    (t : List (String × List CellVal)).map
      (fun c => if c.1 == name then (name, vs) else c)
  else t ++ [(name, vs)]

/-- Number of rows of a DataFrame: the length of its first column. -/
def nRows (t : Table) : Nat :=
  match t with
  | [] => 0
  | c :: _ => c.2.length

/-- Row `i` of the table, as the association list a `df.apply(axis=1)` row
(Series) offers to the applied function. -/
def rowAt (t : Table) (i : Nat) : List (String × CellVal) :=
  (t : List (String × List CellVal)).map (fun c => (c.1, c.2.getD i CellVal.null))

/-- Select the values of the named columns from a row, requiring every value
to be a string: Python `row[column_list]` raises `KeyError` on a missing
label, and `"_".join` raises `TypeError` on a non-string value; either way
the surrounding bare `except` in `combine_column_values` fires. -/
def rowSelectStrs (row : List (String × CellVal)) : List String → Option (List String)
  | [] => some []
  | n :: ns =>
    match row.find? (fun c => c.1 == n), rowSelectStrs row ns with
    | some (_, CellVal.str s), some ss => some (s :: ss)
    | _, _ => Option.none

/-- Python `"_".join`. -/
def joinUnderscore : List String → String
  | [] => ""
  | [s] => s
  | s :: rest => s ++ "_" ++ joinUnderscore rest

/-- `combine_column_values` (`main.py` lines 78-88): join the row's values at
the listed column names with underscores; on any failure, log and return
Python `None` (the function's own bare `except`). -/
def combine_column_values (row : List (String × CellVal)) (column_list : List String) : CellVal :=
  match rowSelectStrs row column_list with
  | some strs => CellVal.str (joinUnderscore strs)
  | Option.none => CellVal.null

/-- `df.apply(combine_column_values, axis=1, column_list=cols)`. -/
def applyCombine (t : Table) (cols : List String) : List CellVal :=
  (List.range (nRows t)).map (fun i => combine_column_values (rowAt t i) cols)

/-- The `(product_info, client_info)` grouping key of row `i`, defined when
both cells are strings; pandas `groupby` drops rows whose key is null. -/
def keyAt (t : Table) (i : Nat) : Option (String × String) :=
  match (rowAt t i).find? (fun c => c.1 == "product_info"),
        (rowAt t i).find? (fun c => c.1 == "client_info") with
  | some (_, CellVal.str p), some (_, CellVal.str c) => some (p, c)
  | _, _ => Option.none

/-- The row indices belonging to group key `k`. -/
def groupIdxs (t : Table) (k : String × String) : List Nat :=
  (List.range (nRows t)).filter (fun i => keyAt t i == some k)

/-- Numeric value of a cell for summation (the aggregator only sums cells it
itself wrote as numbers). -/
def cellInt : CellVal → Int
  | CellVal.int n => n
  | _ => 0

/-- Sum of the cells of column `vs` at the given row indices. -/
def sumAt (vs : List CellVal) (idxs : List Nat) : Int :=
  (idxs.map (fun i => cellInt (vs.getD i CellVal.null))).sum

/-- Deduplicate, keeping first occurrences, structurally. -/
def firstSeenAcc (seen : List (String × String)) :
    List (String × String) → List (String × String)
  | [] => []
  | k :: rest =>
    if k ∈ seen then firstSeenAcc seen rest
    else k :: firstSeenAcc (k :: seen) rest

/-- One output row of
`groupby(['product_info','client_info']).agg(...).reset_index()` after the
`total_transaction_amount` column is added (`main.py` lines 108-111). -/
structure GroupedRow where
  product_info : String
  client_info : String
  quantity_long_sum : Int
  quantity_short_sum : Int
  total_transaction_amount : Int
deriving DecidableEq, Repr

/-- The grouping-and-summing step (`main.py` lines 108-111). -/
def groupby_agg (t : Table) : List GroupedRow :=
  let ks := (List.range (nRows t)).filterMap (keyAt t)
  (firstSeenAcc [] ks).map (fun k =>
    let idxs := groupIdxs t k
    let ql := sumAt (colOrNil t "quantity_long_sum") idxs
    let qs := sumAt (colOrNil t "quantity_short_sum") idxs
    { product_info := k.1, client_info := k.2,
      quantity_long_sum := ql, quantity_short_sum := qs,
      total_transaction_amount := ql - qs })

/-- The in-place mutation `calculate_total_transaction` performs on its
argument on the success path (`main.py` lines 100-106): assign the two
numeric columns, then the two derived key columns, in source order. -/
def mutTable (t : Table) (cl pr : List String) (qlNum qsNum : List CellVal) : Table :=
  let t1 := dfSetCol t "quantity_long_sum" qlNum
  let t2 := dfSetCol t1 "quantity_short_sum" qsNum
  let t3 := dfSetCol t2 "client_info" (applyCombine t2 cl)
  dfSetCol t3 "product_info" (applyCombine t3 pr)

/-- `calculate_total_transaction` (`main.py` lines 91-118).  The bare
`try/except` that logs and returns Python `None` is the `Option.none`
result; on success the function has mutated its argument in place (the
returned first component) and returns the grouped table. -/
def calculate_total_transaction (transactions_df : Table)
    (group_by_client_info_columns group_by_product_info_columns : List String) :
    Option (Table × List GroupedRow) :=
  match dfGetCol transactions_df "quantity_long" with
  | Option.none => Option.none
  | some qlCol =>
    match to_numeric_col qlCol with
    | Option.none => Option.none
    | some qlNum =>
      match dfGetCol (dfSetCol transactions_df "quantity_long_sum" qlNum) "quantity_short" with
      | Option.none => Option.none
      | some qsCol =>
        match to_numeric_col qsCol with
        | Option.none => Option.none
        | some qsNum =>
          let t4 := mutTable transactions_df
            group_by_client_info_columns group_by_product_info_columns qlNum qsNum
          some (t4, groupby_agg t4)

/-- The grouping configuration consumed by `main`. -/
structure Config where
  group_by_client_info_columns : List String
  group_by_product_info_columns : List String

/-- The grouping wiring of `main` (`main.py` lines 170-174): both local
variables are read from the `group_by_client_info_columns` configuration
entry (line 171 reads the client key for the product list). -/
def main_grouping (cfg : Config) (transactions_df : Table) :
    Option (Table × List GroupedRow) :=
  let group_by_client_info_columns := cfg.group_by_client_info_columns
  let group_by_product_info_columns := cfg.group_by_client_info_columns
  calculate_total_transaction transactions_df
    group_by_client_info_columns group_by_product_info_columns

/-- Pad (with spaces, on the right) or truncate a value to a field width. -/
def padTruncChars (cs : List Char) (w : Nat) : List Char :=
  cs.take w ++ List.replicate (w - cs.length) ' '

/-- Pad or truncate a string value to a field width. -/
def padTrunc (v : String) (w : Nat) : String :=
  String.mk (padTruncChars v.data w)

/-- A fixed-width line: each value padded or truncated to its field's width,
concatenated in layout order. -/
def mkLine : List (String × Nat) → List String → String
  | (_, w) :: fc, v :: vs => padTrunc v w ++ mkLine fc vs
  | _, _ => ""

/-- The table the round-trip property expects from parsing `mkLine fc vals`:
one column per field, holding the single trimmed padded-or-truncated value. -/
def roundTripCols : List (String × Nat) → List String → Table
  | (n, w) :: fc, v :: vs =>
    (n, [CellVal.str (strTrim (padTrunc v w))]) :: roundTripCols fc vs
  | _, _ => []

/-- Cursor position of field `j`: the sum of the widths of the fields before
it (each field advances the cursor by its full width). -/
def offsetOf (fc : List (String × Nat)) (j : Nat) : Nat :=
  ((fc.take j).map (fun c => c.2)).sum

/-- The column named `n` is present and every column of that name holds
exactly the values `vs` — the state `df[n] = vs` leaves behind. -/
def AllCol (t : Table) (n : String) (vs : List CellVal) : Prop :=
  t.any (fun c => c.1 == n) = true ∧ ∀ c ∈ t, c.1 = n → c.2 = vs

/-- The spec scenario table: one record, client C001, product P001. -/
def exPipelineTable : Table :=
  input_text_to_df "C001P001   100    50"
    [("client", 4), ("product", 4), ("quantity_long", 6), ("quantity_short", 6)]

/-- A table whose `quantity_long` value `"12x"` is not numeric. -/
def exBadTable : Table :=
  [("client", [CellVal.str "A"]),
   ("quantity_long", [CellVal.str "12x"]),
   ("quantity_short", [CellVal.str "3"])]

/-- Two records of one client/product pair, for aggregation examples. -/
def exAggTable : Table :=
  [("client", [CellVal.str "C1", CellVal.str "C1"]),
   ("product", [CellVal.str "P1", CellVal.str "P1"]),
   ("quantity_long", [CellVal.str "10", CellVal.str "5"]),
   ("quantity_short", [CellVal.str "3", CellVal.str "2"])]

/-- The mutated table `calculate_total_transaction` leaves behind for
`exAggTable`. -/
def exAggMut : Table :=
  exAggTable ++
  [("quantity_long_sum", [CellVal.int 10, CellVal.int 5]),
   ("quantity_short_sum", [CellVal.int 3, CellVal.int 2]),
   ("client_info", [CellVal.str "C1", CellVal.str "C1"]),
   ("product_info", [CellVal.str "P1", CellVal.str "P1"])]

/-- The grouped output for `exAggTable`. -/
def exAggGrouped : List GroupedRow :=
  [{ product_info := "P1", client_info := "C1", quantity_long_sum := 15,
     quantity_short_sum := 5, total_transaction_amount := 10 }]

/-- One record whose product grouping list names an absent field. -/
def exMissTable : Table :=
  [("client", [CellVal.str "A"]),
   ("quantity_long", [CellVal.str "1"]),
   ("quantity_short", [CellVal.str "0"])]

/-- A table on which aggregation is NOT idempotent when the client grouping
list names the derived column `product_info`. -/
def exC8Table : Table :=
  [("f", [CellVal.str "A"]),
   ("quantity_long", [CellVal.str "1"]),
   ("quantity_short", [CellVal.str "0"])]


/-! ## Lemmas about the fixed-width parser -/

theorem splitNLChars_ne_nil (cs : List Char) : splitNLChars cs ≠ [] := by
  cases cs with
  | nil => simp [splitNLChars]
  | cons c rest =>
    simp only [splitNLChars]
    by_cases h : c = '\n'
    · simp [h]
    · simp only [if_neg h]
      cases splitNLChars rest with
      | nil => simp
      | cons l ls => simp

theorem splitNLChars_append_newline (cs : List Char) :
    splitNLChars (cs ++ ['\n']) = splitNLChars cs ++ [[]] := by
  induction cs with
  | nil => decide
  | cons c rest ih =>
    by_cases hc : c = '\n'
    · simp only [List.cons_append, splitNLChars, if_pos hc, List.append_eq]
      rw [ih]
    · simp only [List.cons_append, splitNLChars, if_neg hc, List.append_eq]
      rw [ih]
      cases h : splitNLChars rest with
      | nil => exact absurd h (splitNLChars_ne_nil rest)
      | cons l ls => simp

theorem splitNLChars_no_newline (cs : List Char) (h : '\n' ∉ cs) :
    splitNLChars cs = [cs] := by
  induction cs with
  | nil => rfl
  | cons c rest ih =>
    simp only [List.mem_cons, not_or] at h
    simp only [splitNLChars, if_neg (Ne.symm h.1), ih h.2]

theorem splitNLChars_length (cs : List Char) :
    (splitNLChars cs).length = cs.count '\n' + 1 := by
  induction cs with
  | nil => rfl
  | cons c rest ih =>
    by_cases hc : c = '\n'
    · simp only [splitNLChars, if_pos hc, List.length_cons, ih]
      subst hc
      rw [List.count_cons_self]
    · simp only [splitNLChars, if_neg hc, List.count_cons_of_ne (Ne.symm hc)]
      cases h : splitNLChars rest with
      | nil => exact absurd h (splitNLChars_ne_nil rest)
      | cons l ls =>
        rw [h] at ih
        simpa using ih

theorem splitNL_length (s : String) :
    (splitNL s).length = s.data.count '\n' + 1 := by
  simp [splitNL, splitNLChars_length]

theorem splitNL_ne_nil (s : String) : splitNL s ≠ [] := by
  simp [splitNL, splitNLChars_ne_nil]

theorem splitNL_append_newline (s : String) :
    splitNL (s ++ "\n") = splitNL s ++ [""] := by
  have hd : (s ++ "\n").data = s.data ++ ['\n'] := by
    rw [String.data_append]
  have hmk : (String.mk [] : String) = "" := by decide
  simp only [splitNL, hd, splitNLChars_append_newline, List.map_append,
    List.map_cons, List.map_nil, hmk]

theorem strSlice_empty (p l : Nat) : strSlice "" p l = "" := by
  have h : "".data = [] := by decide
  simp only [strSlice, h, List.drop_nil, List.take_nil]

theorem strSlice_of_length_le (s : String) (p l : Nat) (h : s.data.length ≤ p) :
    strSlice s p l = "" := by
  simp only [strSlice, List.drop_eq_nil_of_le h, List.take_nil]

theorem parseCols_names (lines : List String) :
    ∀ (fc : List (String × Nat)) (pos : Nat),
      (parseCols lines fc pos).map (fun c => c.1) = fc.map (fun c => c.1)
  | [], _ => rfl
  | (n, w) :: fc, pos => by
    simp only [parseCols, List.map_cons]
    rw [parseCols_names lines fc (pos + w)]

theorem parseCols_col_shape (lines : List String) :
    ∀ (fc : List (String × Nat)) (pos : Nat), ∀ c ∈ parseCols lines fc pos,
      ∃ p w, c.2 = lines.map (fun line => CellVal.str (strTrim (strSlice line p w)))
  | [], _, c, hc => absurd hc (by simp [parseCols])
  | (n, w) :: fc, pos, c, hc => by
    simp only [parseCols, List.mem_cons] at hc
    rcases hc with hc | hc
    · exact ⟨pos, w, by rw [hc]⟩
    · exact parseCols_col_shape lines fc (pos + w) c hc

theorem parseCols_getElem? (lines : List String) :
    ∀ (fc : List (String × Nat)) (pos j : Nat) (hj : j < fc.length),
      (parseCols lines fc pos)[j]? =
        some ((fc.get ⟨j, hj⟩).1,
          lines.map (fun line =>
            CellVal.str (strTrim
              (strSlice line (pos + offsetOf fc j) (fc.get ⟨j, hj⟩).2))))
  | [], _, j, hj => absurd hj (by simp)
  | (n, w) :: fc, pos, 0, hj => by
    simp [parseCols, offsetOf]
  | (n, w) :: fc, pos, j + 1, hj => by
    have ih := parseCols_getElem? lines fc (pos + w) j (by simpa using hj)
    simp only [parseCols, List.getElem?_cons_succ, ih, List.get_cons_succ]
    have harith : pos + w + offsetOf fc j = pos + offsetOf ((n, w) :: fc) (j + 1) := by
      simp only [offsetOf, List.take_succ_cons, List.map_cons, List.sum_cons]
      omega
    rw [harith]

/-- Claim C4, as the code has it: parsing the empty string yields the
layout's columns with exactly ONE row of empty-string values (Python
`"".split("\n")` is `[""]`), not zero rows. -/
theorem C4_amended_empty_input_one_row (fc : List (String × Nat)) :
    (input_text_to_df "" fc).map (fun c => c.1) = fc.map (fun c => c.1) ∧
    (∀ c ∈ input_text_to_df "" fc, c.2 = [CellVal.str ""]) ∧
    (fc ≠ [] → nRows (input_text_to_df "" fc) = 1) := by
  have hsplit : splitNL "" = [""] := by decide
  refine ⟨?_, ?_, ?_⟩
  · simp only [input_text_to_df, parseCols_names]
  · intro c hc
    simp only [input_text_to_df, hsplit] at hc
    obtain ⟨p, w, hpw⟩ := parseCols_col_shape [""] fc 0 c hc
    rw [hpw]
    simp only [List.map_cons, List.map_nil, strSlice_empty]
    have : strTrim "" = "" := by decide
    rw [this]
  · intro hfc
    match fc, hfc with
    | (n, w) :: fc, _ =>
      simp [input_text_to_df, hsplit, parseCols, nRows]

/-- C4 as literally claimed is false: parsing the empty string with the
scenario layout yields one row, not zero rows. -/
theorem C4_counterexample :
    nRows (input_text_to_df "" [("client", 4), ("product", 4)]) = 1 ∧
    nRows (input_text_to_df "" [("client", 4), ("product", 4)]) ≠ 0 := by
  constructor <;> decide

/-- Witness for C4's amended statement at a concrete layout. -/
theorem C4_witness :
    (input_text_to_df "" [("client", 4), ("product", 4)]).map (fun c => c.1) =
      ["client", "product"] ∧
    nRows (input_text_to_df "" [("client", 4), ("product", 4)]) = 1 := by
  refine ⟨?_, (C4_amended_empty_input_one_row [("client", 4), ("product", 4)]).2.2 (by decide)⟩
  have h := (C4_amended_empty_input_one_row [("client", 4), ("product", 4)]).1
  simpa using h

/-- Claim C6: a text with N newline-delimited lines (a trailing newline
contributing a final empty line) parses to exactly N rows, and a blank
trailing line yields a final row whose every field value is the empty
string.  The layout must name at least one field (a `DataFrame` built from
an empty dict has zero rows regardless of input). -/
theorem C6_line_count (text : String) (fc : List (String × Nat)) (hfc : fc ≠ []) :
    nRows (input_text_to_df text fc) = (splitNL text).length ∧
    (splitNL text).length = text.data.count '\n' + 1 ∧
    (∀ c ∈ input_text_to_df text fc, c.2.length = (splitNL text).length) ∧
    (∀ s : String, text = s ++ "\n" →
      ∀ c ∈ input_text_to_df text fc, c.2.getLast? = some (CellVal.str "")) := by
  refine ⟨?_, splitNL_length text, ?_, ?_⟩
  · match fc, hfc with
    | (n, w) :: fc, _ =>
      simp [input_text_to_df, parseCols, nRows]
  · intro c hc
    obtain ⟨p, w, hpw⟩ := parseCols_col_shape (splitNL text) fc 0 c hc
    rw [hpw, List.length_map]
  · intro s hs c hc
    obtain ⟨p, w, hpw⟩ := parseCols_col_shape (splitNL text) fc 0 c hc
    rw [hpw, hs, splitNL_append_newline, List.map_append, List.map_cons, List.map_nil,
      List.getLast?_concat, strSlice_empty]
    have : strTrim "" = "" := by decide
    rw [this]

/-- Witness for C6 at a concrete text with a trailing newline. -/
theorem C6_witness :
    nRows (input_text_to_df "ab\n" [("f", 2)]) = (splitNL "ab\n").length ∧
    (∀ c ∈ input_text_to_df "ab\n" [("f", 2)], c.2.getLast? = some (CellVal.str "")) :=
  ⟨(C6_line_count "ab\n" [("f", 2)] (by decide)).1,
   (C6_line_count "ab\n" [("f", 2)] (by decide)).2.2.2 "ab" (by decide)⟩

/-- Claim C9: slicing a field never fails even when its configured range
runs past the end of the line — the cursor position of field `j` is the
full-width sum of all preceding fields regardless of how many characters
earlier slices actually retrieved, and a slice starting at or past the end
of the line yields the empty string. -/
theorem C9_slice_clamped_cursor_advances (line : String) (fc : List (String × Nat))
    (j : Nat) (hj : j < fc.length) :
    (parseCols [line] fc 0)[j]? =
      some ((fc.get ⟨j, hj⟩).1,
        [CellVal.str (strTrim (strSlice line (offsetOf fc j) (fc.get ⟨j, hj⟩).2))]) ∧
    (line.data.length ≤ offsetOf fc j →
      strSlice line (offsetOf fc j) (fc.get ⟨j, hj⟩).2 = "") := by
  constructor
  · have h := parseCols_getElem? [line] fc 0 j hj
    simpa using h
  · intro hlen
    exact strSlice_of_length_le line _ _ hlen

/-- Witness for C9: the second field of a two-field layout on a one-character
line starts at cursor position 4 (the first field's full width) and yields
the empty string. -/
theorem C9_witness :
    (parseCols ["x"] [("a", 4), ("b", 3)] 0)[1]? =
      some ("b", [CellVal.str (strTrim (strSlice "x" (offsetOf [("a", 4), ("b", 3)] 1) 3))]) ∧
    strSlice "x" (offsetOf [("a", 4), ("b", 3)] 1) 3 = "" := by
  have h := C9_slice_clamped_cursor_advances "x" [("a", 4), ("b", 3)] 1 (by decide)
  exact ⟨h.1, h.2 (by decide)⟩

/-! ## C1: the grouping wiring of `main` -/

/-- Claim C1 is the intent but the code is a slip (`main.py` line 171 reads
`group_by_client_info_columns` for the product grouping): with a
configuration whose client list is `["client"]` and product list is
`["product"]`, the pipeline derives `product_info` from the CLIENT field
(yielding `"C001"`), whereas passing the configured product list — as the
claim and the function's own docstring prescribe — yields `"P001"`. -/
theorem C1_code_bug_product_key :
    (main_grouping ⟨["client"], ["product"]⟩ exPipelineTable).map
        (fun r => r.2.map (fun gr => (gr.product_info, gr.client_info))) =
      some [("C001", "C001")] ∧
    (calculate_total_transaction exPipelineTable ["client"] ["product"]).map
        (fun r => r.2.map (fun gr => (gr.product_info, gr.client_info))) =
      some [("P001", "C001")] := by
  constructor <;> decide

/-! ## Lemmas about DataFrame column lookup and assignment -/

theorem find?_map_overwrite (t : Table) (m : String) (v : List CellVal) (n : String)
    (hnm : n ≠ m) :
    (t.map (fun c => if c.1 == m then (m, v) else c)).find? (fun c => c.1 == n) =
      t.find? (fun c => c.1 == n) := by
  induction t with
  | nil => rfl
  | cons c cs ih =>
    by_cases hc : (c.1 == m) = true
    · have hm : c.1 = m := by simpa using hc
      have hcn : (c.1 == n) = false := by
        simp only [beq_eq_false_iff_ne, ne_eq, hm]
        exact fun hh => hnm hh.symm
      have hmn : ((m : String) == n) = false := by
        simp only [beq_eq_false_iff_ne, ne_eq]
        exact fun hh => hnm hh.symm
      simp only [List.map_cons, if_pos hc, List.find?_cons, hmn, hcn]
      exact ih
    · simp only [List.map_cons, if_neg hc, List.find?_cons]
      cases hn : (c.1 == n) with
      | true => rfl
      | false => exact ih

theorem find?_setCol_ne (t : Table) (m : String) (v : List CellVal) (n : String)
    (hnm : n ≠ m) :
    (dfSetCol t m v).find? (fun c => c.1 == n) = t.find? (fun c => c.1 == n) := by
  unfold dfSetCol
  split
  · exact find?_map_overwrite t m v n hnm
  · rw [List.find?_append]
    have hmn : ((m : String) == n) = false := by
      simp only [beq_eq_false_iff_ne, ne_eq]
      exact fun hh => hnm hh.symm
    simp [List.find?_cons, hmn]

theorem dfGetCol_setCol_ne (t : Table) (m : String) (v : List CellVal) (n : String)
    (hnm : n ≠ m) : dfGetCol (dfSetCol t m v) n = dfGetCol t n := by
  unfold dfGetCol
  rw [find?_setCol_ne t m v n hnm]

theorem find?_map_overwrite_self (t : Table) (m : String) (v : List CellVal)
    (h : t.any (fun c => c.1 == m) = true) :
    (t.map (fun c => if c.1 == m then (m, v) else c)).find? (fun c => c.1 == m) =
      some (m, v) := by
  induction t with
  | nil => cases h
  | cons c cs ih =>
    by_cases hc : (c.1 == m) = true
    · simp only [List.map_cons, if_pos hc, List.find?_cons]
      simp
    · have hc' : (c.1 == m) = false := by simpa using hc
      have hif : (if (c.1 == m) = true then (m, v) else c) = c := by
        rw [hc']
        simp
      simp only [List.map_cons]
      rw [hif]
      simp only [List.find?_cons, hc']
      apply ih
      simpa [hc'] using h

theorem dfGetCol_setCol_self (t : Table) (n : String) (vs : List CellVal) :
    dfGetCol (dfSetCol t n vs) n = some vs := by
  unfold dfGetCol dfSetCol
  split
  case isTrue h => rw [find?_map_overwrite_self t n vs h]; rfl
  case isFalse h =>
    have hf : t.find? (fun c => c.1 == n) = Option.none := by
      rw [List.find?_eq_none]
      intro c hc hcn
      exact h (List.any_eq_true.mpr ⟨c, hc, hcn⟩)
    rw [List.find?_append, hf]
    simp [List.find?_cons]

theorem dfSetCol_absent (t : Table) (n : String) (vs : List CellVal)
    (h : ∀ c ∈ t, c.1 ≠ n) : dfSetCol t n vs = t ++ [(n, vs)] := by
  have hfalse : t.any (fun c => c.1 == n) = false := by
    rw [List.any_eq_false]
    intro c hc
    simpa using h c hc
  simp [dfSetCol, hfalse]

theorem dfSetCol_name_mem (t : Table) (m : String) (v : List CellVal) :
    ∀ c ∈ dfSetCol t m v, c.1 ∈ t.map (fun c => c.1) ∨ c.1 = m := by
  intro c hc
  unfold dfSetCol at hc
  split at hc
  · obtain ⟨c', hc', hcc⟩ := List.mem_map.mp hc
    by_cases h' : c'.1 == m
    · right
      rw [← hcc]
      have hm : c'.1 = m := by simpa using h'
      simp [hm]
    · left
      rw [← hcc]
      simp only [if_neg h']
      exact List.mem_map.mpr ⟨c', hc', rfl⟩
  · rcases List.mem_append.mp hc with h' | h'
    · exact Or.inl (List.mem_map.mpr ⟨c, h', rfl⟩)
    · simp only [List.mem_singleton] at h'
      right
      rw [h']

theorem rowAt_find? (t : Table) (i : Nat) (n : String) :
    (rowAt t i).find? (fun c => c.1 == n) =
      (t.find? (fun c => c.1 == n)).map (fun c => (c.1, c.2.getD i CellVal.null)) := by
  unfold rowAt
  rw [List.find?_map]
  rfl

theorem rowAt_find?_of_getCol (t : Table) (n : String) (col : List CellVal) (i : Nat)
    (h : dfGetCol t n = some col) :
    (rowAt t i).find? (fun c => c.1 == n) = some (n, col.getD i CellVal.null) := by
  unfold dfGetCol at h
  cases hf : t.find? (fun c => c.1 == n) with
  | none => rw [hf] at h; cases h
  | some c =>
    rw [hf] at h
    have hc2 : c.2 = col := by simpa using h
    have hc1 : c.1 = n := by
      have := List.find?_some hf
      simpa using this
    rw [rowAt_find?, hf]
    simp [hc1, hc2]

theorem getD_null_of_all_null (col : List CellVal) (i : Nat)
    (h : ∀ v ∈ col, v = CellVal.null) : col.getD i CellVal.null = CellVal.null := by
  induction col generalizing i with
  | nil => simp
  | cons v vs ih =>
    cases i with
    | zero => simpa using h v (by simp)
    | succ j =>
      simp only [List.getD_cons_succ]
      exact ih j (fun w hw => h w (List.mem_cons_of_mem v hw))

theorem keyAt_eq_none_of_client_null (t : Table) (i : Nat)
    (h : (rowAt t i).find? (fun c => c.1 == "client_info") =
      some ("client_info", CellVal.null)) :
    keyAt t i = Option.none := by
  unfold keyAt
  rw [h]
  cases hp : (rowAt t i).find? (fun c => c.1 == "product_info") with
  | none => rfl
  | some c =>
    obtain ⟨cn, cv⟩ := c
    cases cv <;> rfl

theorem keyAt_eq_none_of_product_null (t : Table) (i : Nat)
    (h : (rowAt t i).find? (fun c => c.1 == "product_info") =
      some ("product_info", CellVal.null)) :
    keyAt t i = Option.none := by
  unfold keyAt
  rw [h]

theorem optMapList_eq_none {α β : Type} (f : α → Option β) (l : List α) (a : α)
    (ha : a ∈ l) (hf : f a = Option.none) : optMapList f l = Option.none := by
  induction l with
  | nil => cases ha
  | cons x xs ih =>
    rcases List.mem_cons.mp ha with rfl | hmem
    · simp [optMapList, hf]
    · cases hfx : f x <;> simp [optMapList, hfx, ih hmem]

theorem to_numeric_col_eq_none (vs : List CellVal) (v : CellVal)
    (hv : v ∈ vs) (hn : to_numeric_cell v = Option.none) :
    to_numeric_col vs = Option.none := by
  simp [to_numeric_col, optMapList_eq_none to_numeric_cell vs v hv hn]

/-- Inversion of a successful aggregation run. -/
theorem calc_inv {t : Table} {cl pr : List String} {t' : Table} {g : List GroupedRow}
    (h : calculate_total_transaction t cl pr = some (t', g)) :
    ∃ qlCol qlNum qsCol qsNum,
      dfGetCol t "quantity_long" = some qlCol ∧
      to_numeric_col qlCol = some qlNum ∧
      dfGetCol (dfSetCol t "quantity_long_sum" qlNum) "quantity_short" = some qsCol ∧
      to_numeric_col qsCol = some qsNum ∧
      t' = mutTable t cl pr qlNum qsNum ∧
      g = groupby_agg t' := by
  unfold calculate_total_transaction at h
  split at h
  · cases h
  · rename_i qlCol hql
    split at h
    · cases h
    · rename_i qlNum hqlN
      split at h
      · cases h
      · rename_i qsCol hqs
        split at h
        · cases h
        · rename_i qsNum hqsN
          simp only [Option.some.injEq, Prod.mk.injEq] at h
          exact ⟨qlCol, qlNum, qsCol, qsNum, hql, hqlN, hqs, hqsN, h.1.symm,
            by rw [← h.2, ← h.1]⟩

/-! ## C2: strict numeric conversion aborts aggregation -/

/-- Claim C2: if any `quantity_long` or `quantity_short` value fails the
strict numeric parse, the whole aggregation returns `None` — no Grouped
Summary Record is emitted and no invalid string is coerced to zero. -/
theorem C2_invalid_numeric_aborts (t : Table) (cl pr : List String)
    (h : (∃ v ∈ colOrNil t "quantity_long", to_numeric_cell v = Option.none) ∨
         (∃ v ∈ colOrNil t "quantity_short", to_numeric_cell v = Option.none)) :
    calculate_total_transaction t cl pr = Option.none := by
  unfold calculate_total_transaction
  split
  · rfl
  · rename_i qlCol hql
    split
    · rfl
    · rename_i qlNum hqlN
      split
      · rfl
      · rename_i qsCol hqs
        split
        · rfl
        · rename_i qsNum hqsN
          exfalso
          rw [dfGetCol_setCol_ne t "quantity_long_sum" qlNum "quantity_short"
            (by decide)] at hqs
          rcases h with ⟨v, hv, hvn⟩ | ⟨v, hv, hvn⟩
          · have hcol : colOrNil t "quantity_long" = qlCol := by
              simp [colOrNil, hql]
            rw [hcol] at hv
            rw [to_numeric_col_eq_none qlCol v hv hvn] at hqlN
            cases hqlN
          · have hcol : colOrNil t "quantity_short" = qsCol := by
              simp [colOrNil, hqs]
            rw [hcol] at hv
            rw [to_numeric_col_eq_none qsCol v hv hvn] at hqsN
            cases hqsN

/-- Witness for C2 at a concrete table with an unparsable quantity. -/
theorem C2_witness :
    ((∃ v ∈ colOrNil exBadTable "quantity_long", to_numeric_cell v = Option.none) ∨
     (∃ v ∈ colOrNil exBadTable "quantity_short", to_numeric_cell v = Option.none)) ∧
    calculate_total_transaction exBadTable ["client"] ["client"] = Option.none :=
  ⟨by decide, C2_invalid_numeric_aborts exBadTable ["client"] ["client"] (by decide)⟩

/-! ## C5 and C10: properties of a successful aggregation -/

/-- Claim C5: in every emitted group, `total_transaction_amount` is the sum
of the numeric `quantity_long` values minus the sum of the numeric
`quantity_short` values over exactly the rows whose derived
(product_info, client_info) pair equals the group's key pair
(`groupIdxs` filters the row indices by key equality), where the numeric
columns of the result table are precisely the strict numeric conversions of
the input table's `quantity_long` / `quantity_short` columns. -/
theorem C5_sum_invariant (t : Table) (cl pr : List String) (t' : Table)
    (g : List GroupedRow)
    (h : calculate_total_transaction t cl pr = some (t', g)) :
    ∃ qlCol qsCol,
      dfGetCol t "quantity_long" = some qlCol ∧
      dfGetCol t "quantity_short" = some qsCol ∧
      to_numeric_col qlCol = some (colOrNil t' "quantity_long_sum") ∧
      to_numeric_col qsCol = some (colOrNil t' "quantity_short_sum") ∧
      ∀ gr ∈ g,
        gr.quantity_long_sum =
          sumAt (colOrNil t' "quantity_long_sum")
            (groupIdxs t' (gr.product_info, gr.client_info)) ∧
        gr.quantity_short_sum =
          sumAt (colOrNil t' "quantity_short_sum")
            (groupIdxs t' (gr.product_info, gr.client_info)) ∧
        gr.total_transaction_amount = gr.quantity_long_sum - gr.quantity_short_sum := by
  obtain ⟨qlCol, qlNum, qsCol, qsNum, hql, hqlN, hqs, hqsN, ht', hg⟩ := calc_inv h
  rw [dfGetCol_setCol_ne t "quantity_long_sum" qlNum "quantity_short" (by decide)] at hqs
  have hqlCol : dfGetCol t' "quantity_long_sum" = some qlNum := by
    rw [ht']
    simp only [mutTable]
    rw [dfGetCol_setCol_ne _ "product_info" _ "quantity_long_sum" (by decide),
        dfGetCol_setCol_ne _ "client_info" _ "quantity_long_sum" (by decide),
        dfGetCol_setCol_ne _ "quantity_short_sum" _ "quantity_long_sum" (by decide),
        dfGetCol_setCol_self]
  have hqsCol : dfGetCol t' "quantity_short_sum" = some qsNum := by
    rw [ht']
    simp only [mutTable]
    rw [dfGetCol_setCol_ne _ "product_info" _ "quantity_short_sum" (by decide),
        dfGetCol_setCol_ne _ "client_info" _ "quantity_short_sum" (by decide),
        dfGetCol_setCol_self]
  refine ⟨qlCol, qsCol, hql, hqs, ?_, ?_, ?_⟩
  · rw [show colOrNil t' "quantity_long_sum" = qlNum from by simp [colOrNil, hqlCol]]
    exact hqlN
  · rw [show colOrNil t' "quantity_short_sum" = qsNum from by simp [colOrNil, hqsCol]]
    exact hqsN
  · intro gr hgr
    rw [hg] at hgr
    simp only [groupby_agg] at hgr
    obtain ⟨k, hk, rfl⟩ := List.mem_map.mp hgr
    exact ⟨rfl, rfl, rfl⟩

/-- Witness for C5 at a concrete two-row table collapsing into one group. -/
theorem C5_witness :
    calculate_total_transaction exAggTable ["client"] ["product"] =
      some (exAggMut, exAggGrouped) ∧
    ∃ qlCol qsCol,
      dfGetCol exAggTable "quantity_long" = some qlCol ∧
      dfGetCol exAggTable "quantity_short" = some qsCol ∧
      to_numeric_col qlCol = some (colOrNil exAggMut "quantity_long_sum") ∧
      to_numeric_col qsCol = some (colOrNil exAggMut "quantity_short_sum") ∧
      ∀ gr ∈ exAggGrouped,
        gr.quantity_long_sum =
          sumAt (colOrNil exAggMut "quantity_long_sum")
            (groupIdxs exAggMut (gr.product_info, gr.client_info)) ∧
        gr.quantity_short_sum =
          sumAt (colOrNil exAggMut "quantity_short_sum")
            (groupIdxs exAggMut (gr.product_info, gr.client_info)) ∧
        gr.total_transaction_amount = gr.quantity_long_sum - gr.quantity_short_sum :=
  ⟨by decide,
   C5_sum_invariant exAggTable ["client"] ["product"] exAggMut exAggGrouped (by decide)⟩

/-- Claim C10: on the success path the aggregation mutates its input table
in place, appending exactly the four derived columns `quantity_long_sum`,
`quantity_short_sum`, `client_info` and `product_info` (for tables that do
not already carry those names), leaving every pre-existing column — name,
position and values — unchanged as the prefix of the result. -/
theorem C10_in_place_mutation (t : Table) (cl pr : List String) (t' : Table)
    (g : List GroupedRow)
    (hnames : ∀ c ∈ t, c.1 ∉ (["quantity_long_sum", "quantity_short_sum",
      "client_info", "product_info"] : List String))
    (h : calculate_total_transaction t cl pr = some (t', g)) :
    ∃ a b c d, t' = t ++ [("quantity_long_sum", a), ("quantity_short_sum", b),
      ("client_info", c), ("product_info", d)] := by
  obtain ⟨qlCol, qlNum, qsCol, qsNum, hql, hqlN, hqs, hqsN, ht', hg⟩ := calc_inv h
  have hn : ∀ c ∈ t, c.1 ≠ "quantity_long_sum" ∧ c.1 ≠ "quantity_short_sum" ∧
      c.1 ≠ "client_info" ∧ c.1 ≠ "product_info" := by
    intro c hc
    have := hnames c hc
    simp only [List.mem_cons, List.mem_singleton, not_or] at this
    exact ⟨this.1, this.2.1, this.2.2.1, by simpa using this.2.2.2⟩
  refine ⟨qlNum, qsNum,
    applyCombine ((t ++ [("quantity_long_sum", qlNum)]) ++
      [("quantity_short_sum", qsNum)]) cl,
    applyCombine (((t ++ [("quantity_long_sum", qlNum)]) ++
      [("quantity_short_sum", qsNum)]) ++
      [("client_info", applyCombine ((t ++ [("quantity_long_sum", qlNum)]) ++
        [("quantity_short_sum", qsNum)]) cl)]) pr, ?_⟩
  rw [ht']
  simp only [mutTable]
  have habs1 : ∀ c ∈ t, c.1 ≠ "quantity_long_sum" := fun c hc => (hn c hc).1
  rw [dfSetCol_absent t "quantity_long_sum" qlNum habs1]
  have habs2 : ∀ c ∈ t ++ [("quantity_long_sum", qlNum)],
      c.1 ≠ "quantity_short_sum" := by
    intro c hc
    rcases List.mem_append.mp hc with h' | h'
    · exact (hn c h').2.1
    · simp only [List.mem_singleton] at h'
      rw [h']
      simp
  rw [dfSetCol_absent _ "quantity_short_sum" qsNum habs2]
  have habs3 : ∀ c ∈ (t ++ [("quantity_long_sum", qlNum)]) ++
      [("quantity_short_sum", qsNum)], c.1 ≠ "client_info" := by
    intro c hc
    rcases List.mem_append.mp hc with h' | h'
    · rcases List.mem_append.mp h' with h'' | h''
      · exact (hn c h'').2.2.1
      · simp only [List.mem_singleton] at h''
        rw [h'']
        simp
    · simp only [List.mem_singleton] at h'
      rw [h']
      simp
  rw [dfSetCol_absent _ "client_info" _ habs3]
  have habs4 : ∀ c ∈ ((t ++ [("quantity_long_sum", qlNum)]) ++
      [("quantity_short_sum", qsNum)]) ++
      [("client_info", applyCombine ((t ++ [("quantity_long_sum", qlNum)]) ++
        [("quantity_short_sum", qsNum)]) cl)], c.1 ≠ "product_info" := by
    intro c hc
    rcases List.mem_append.mp hc with h' | h'
    · rcases List.mem_append.mp h' with h'' | h''
      · rcases List.mem_append.mp h'' with h3 | h3
        · exact (hn c h3).2.2.2
        · simp only [List.mem_singleton] at h3
          rw [h3]
          simp
      · simp only [List.mem_singleton] at h''
        rw [h'']
        simp
    · simp only [List.mem_singleton] at h'
      rw [h']
      simp
  rw [dfSetCol_absent _ "product_info" _ habs4]
  simp [List.append_assoc]

/-- Witness for C10 at the concrete example table. -/
theorem C10_witness :
    ∃ a b c d, exAggMut = exAggTable ++ [("quantity_long_sum", a),
      ("quantity_short_sum", b), ("client_info", c), ("product_info", d)] :=
  C10_in_place_mutation exAggTable ["client"] ["product"] exAggMut exAggGrouped
    (by decide) (by decide)

/-! ## C3: a grouping field absent from the table -/

theorem rowSelectStrs_eq_none (row : List (String × CellVal)) (ns : List String)
    (n : String) (hn : n ∈ ns)
    (hf : row.find? (fun c => c.1 == n) = Option.none) :
    rowSelectStrs row ns = Option.none := by
  induction ns with
  | nil => cases hn
  | cons m ms ih =>
    rcases List.mem_cons.mp hn with rfl | hmem
    · simp only [rowSelectStrs, hf]
    · cases hfm : row.find? (fun c => c.1 == m) with
      | none => simp only [rowSelectStrs, hfm]
      | some c =>
        obtain ⟨cn, cv⟩ := c
        cases cv <;> simp only [rowSelectStrs, hfm, ih hmem]

theorem applyCombine_null (t : Table) (cols : List String) (n : String)
    (hn : n ∈ cols) (habs : ∀ c ∈ t, c.1 ≠ n) :
    ∀ v ∈ applyCombine t cols, v = CellVal.null := by
  intro v hv
  simp only [applyCombine, List.mem_map] at hv
  obtain ⟨i, _, rfl⟩ := hv
  unfold combine_column_values
  have hf : (rowAt t i).find? (fun c => c.1 == n) = Option.none := by
    rw [List.find?_eq_none]
    intro c hc
    simp only [rowAt, List.mem_map] at hc
    obtain ⟨c', hc', rfl⟩ := hc
    simpa using habs c' hc'
  rw [rowSelectStrs_eq_none (rowAt t i) cols n hn hf]

theorem setCol_keeps_absent (t : Table) (m : String) (v : List CellVal) (n : String)
    (hnm : n ≠ m) (h : ∀ c ∈ t, c.1 ≠ n) : ∀ c ∈ dfSetCol t m v, c.1 ≠ n := by
  intro c hc
  rcases dfSetCol_name_mem t m v c hc with h' | h'
  · obtain ⟨c', hc', he⟩ := List.mem_map.mp h'
    rw [← he]
    exact h c' hc'
  · rw [h']
    exact Ne.symm hnm

/-- Claim C3, as the code has it: when a field named in a grouping-field
list is absent from the table, the failure is row-local and non-fatal (the
per-row `combine_column_values` catches it, logs, and yields null), the
derived key of every row is undefined, and aggregation proceeds — BUT the
affected rows do not appear in the grouped output: `groupby` drops rows
whose key is null, so the Grouped Summary Table is empty. -/
theorem C3_amended_missing_field_rows_dropped (t : Table) (cl pr : List String)
    (hql : ∃ qlCol qlNum, dfGetCol t "quantity_long" = some qlCol ∧
      to_numeric_col qlCol = some qlNum)
    (hqs : ∃ qsCol qsNum, dfGetCol t "quantity_short" = some qsCol ∧
      to_numeric_col qsCol = some qsNum)
    (hmiss :
      (∃ n ∈ cl, (∀ c ∈ t, c.1 ≠ n) ∧
        n ∉ (["quantity_long_sum", "quantity_short_sum", "client_info",
          "product_info"] : List String)) ∨
      (∃ n ∈ pr, (∀ c ∈ t, c.1 ≠ n) ∧
        n ∉ (["quantity_long_sum", "quantity_short_sum", "client_info",
          "product_info"] : List String))) :
    ∃ t', calculate_total_transaction t cl pr = some (t', []) ∧
      ∀ i, keyAt t' i = Option.none := by
  obtain ⟨qlCol, qlNum, hql1, hql2⟩ := hql
  obtain ⟨qsCol, qsNum, hqs1, hqs2⟩ := hqs
  have hqs1' : dfGetCol (dfSetCol t "quantity_long_sum" qlNum) "quantity_short" =
      some qsCol := by
    rw [dfGetCol_setCol_ne t "quantity_long_sum" qlNum "quantity_short" (by decide)]
    exact hqs1
  have hkeys : ∀ i, keyAt (mutTable t cl pr qlNum qsNum) i = Option.none := by
    intro i
    rcases hmiss with ⟨n, hncl, habs, hnotin⟩ | ⟨n, hnpr, habs, hnotin⟩
    · have hne : n ≠ "quantity_long_sum" ∧ n ≠ "quantity_short_sum" ∧
          n ≠ "client_info" ∧ n ≠ "product_info" := by
        simp only [List.mem_cons, List.mem_singleton, not_or] at hnotin
        exact ⟨hnotin.1, hnotin.2.1, hnotin.2.2.1, by simpa using hnotin.2.2.2⟩
      have habs2 : ∀ c ∈ dfSetCol (dfSetCol t "quantity_long_sum" qlNum)
          "quantity_short_sum" qsNum, c.1 ≠ n :=
        setCol_keeps_absent _ _ _ n hne.2.1 (setCol_keeps_absent _ _ _ n hne.1 habs)
      have hnull : ∀ v ∈ applyCombine (dfSetCol (dfSetCol t "quantity_long_sum" qlNum)
          "quantity_short_sum" qsNum) cl, v = CellVal.null :=
        applyCombine_null _ cl n hncl habs2
      have hci : dfGetCol (mutTable t cl pr qlNum qsNum) "client_info" =
          some (applyCombine (dfSetCol (dfSetCol t "quantity_long_sum" qlNum)
            "quantity_short_sum" qsNum) cl) := by
        simp only [mutTable]
        rw [dfGetCol_setCol_ne _ "product_info" _ "client_info" (by decide),
          dfGetCol_setCol_self]
      apply keyAt_eq_none_of_client_null
      rw [rowAt_find?_of_getCol (mutTable t cl pr qlNum qsNum) "client_info" _ i hci,
        getD_null_of_all_null _ i hnull]
    · have hne : n ≠ "quantity_long_sum" ∧ n ≠ "quantity_short_sum" ∧
          n ≠ "client_info" ∧ n ≠ "product_info" := by
        simp only [List.mem_cons, List.mem_singleton, not_or] at hnotin
        exact ⟨hnotin.1, hnotin.2.1, hnotin.2.2.1, by simpa using hnotin.2.2.2⟩
      have habs3 : ∀ c ∈ dfSetCol (dfSetCol (dfSetCol t "quantity_long_sum" qlNum)
          "quantity_short_sum" qsNum) "client_info"
          (applyCombine (dfSetCol (dfSetCol t "quantity_long_sum" qlNum)
            "quantity_short_sum" qsNum) cl), c.1 ≠ n :=
        setCol_keeps_absent _ _ _ n hne.2.2.1
          (setCol_keeps_absent _ _ _ n hne.2.1
            (setCol_keeps_absent _ _ _ n hne.1 habs))
      have hnull : ∀ v ∈ applyCombine (dfSetCol (dfSetCol (dfSetCol t
          "quantity_long_sum" qlNum) "quantity_short_sum" qsNum) "client_info"
          (applyCombine (dfSetCol (dfSetCol t "quantity_long_sum" qlNum)
            "quantity_short_sum" qsNum) cl)) pr, v = CellVal.null :=
        applyCombine_null _ pr n hnpr habs3
      have hpi : dfGetCol (mutTable t cl pr qlNum qsNum) "product_info" =
          some (applyCombine (dfSetCol (dfSetCol (dfSetCol t "quantity_long_sum"
            qlNum) "quantity_short_sum" qsNum) "client_info"
            (applyCombine (dfSetCol (dfSetCol t "quantity_long_sum" qlNum)
              "quantity_short_sum" qsNum) cl)) pr) := by
        simp only [mutTable]
        rw [dfGetCol_setCol_self]
      apply keyAt_eq_none_of_product_null
      rw [rowAt_find?_of_getCol (mutTable t cl pr qlNum qsNum) "product_info" _ i hpi,
        getD_null_of_all_null _ i hnull]
  have hagg : groupby_agg (mutTable t cl pr qlNum qsNum) = [] := by
    simp only [groupby_agg]
    have hfm : (List.range (nRows (mutTable t cl pr qlNum qsNum))).filterMap
        (keyAt (mutTable t cl pr qlNum qsNum)) = [] := by
      rw [List.filterMap_eq_nil_iff]
      intro a ha
      exact hkeys a
    rw [hfm]
    rfl
  refine ⟨mutTable t cl pr qlNum qsNum, ?_, hkeys⟩
  unfold calculate_total_transaction
  simp only [hql1, hql2, hqs1', hqs2, hagg]

/-- Claim C3 as stated is false: with grouping field `"missing_field"` absent
from the one-row table, aggregation proceeds and the row's derived key is
null, but the grouped output is EMPTY — the affected row appears in no
group, there is no undefined-key bucket. -/
theorem C3_counterexample :
    nRows exMissTable = 1 ∧
    (calculate_total_transaction exMissTable ["client"] ["missing_field"]).map
      (fun r => r.2) = some [] ∧
    (calculate_total_transaction exMissTable ["client"] ["missing_field"]).map
      (fun r => dfGetCol r.1 "product_info") = some (some [CellVal.null]) := by
  refine ⟨by decide, by decide, by decide⟩

/-- Witness for C3's amended statement at the concrete one-row table. -/
theorem C3_witness :
    ∃ t', calculate_total_transaction exMissTable ["client"] ["missing_field"] =
      some (t', []) ∧ ∀ i, keyAt t' i = Option.none :=
  C3_amended_missing_field_rows_dropped exMissTable ["client"] ["missing_field"]
    ⟨[CellVal.str "1"], [CellVal.int 1], by decide, by decide⟩
    ⟨[CellVal.str "0"], [CellVal.int 0], by decide, by decide⟩
    (Or.inr ⟨"missing_field", by decide, by decide, by decide⟩)

/-! ## C8: idempotence of aggregation on the mutated table -/

theorem allCol_setCol_self (t : Table) (n : String) (vs : List CellVal) :
    AllCol (dfSetCol t n vs) n vs := by
  constructor
  · unfold dfSetCol
    split
    case isTrue h =>
      obtain ⟨c, hc, hcn⟩ := List.any_eq_true.mp h
      refine List.any_eq_true.mpr ⟨(n, vs), ?_, by simp⟩
      refine List.mem_map.mpr ⟨c, hc, ?_⟩
      simp [hcn]
    case isFalse h =>
      refine List.any_eq_true.mpr ⟨(n, vs), ?_, by simp⟩
      simp
  · intro c hc hcn
    unfold dfSetCol at hc
    split at hc
    · obtain ⟨c', hc', he⟩ := List.mem_map.mp hc
      by_cases h' : (c'.1 == n) = true
      · rw [if_pos h'] at he
        rw [← he]
      · rw [if_neg h'] at he
        rw [← he] at hcn
        exact absurd hcn (by simpa using h')
    · rename_i hany
      rcases List.mem_append.mp hc with h' | h'
      · exact absurd (List.any_eq_true.mpr ⟨c, h', by simpa using hcn⟩) hany
      · simp only [List.mem_singleton] at h'
        rw [h']

theorem allCol_setCol_ne (t : Table) (m : String) (w : List CellVal) (n : String)
    (vs : List CellVal) (hmn : m ≠ n) (h : AllCol t n vs) :
    AllCol (dfSetCol t m w) n vs := by
  obtain ⟨hany, hval⟩ := h
  constructor
  · unfold dfSetCol
    split
    case isTrue h' =>
      obtain ⟨c, hc, hcn⟩ := List.any_eq_true.mp hany
      have hcm : (c.1 == m) = false := by
        have hn : c.1 = n := by simpa using hcn
        simp only [beq_eq_false_iff_ne, ne_eq, hn]
        exact Ne.symm hmn
      refine List.any_eq_true.mpr ⟨c, List.mem_map.mpr ⟨c, hc, by simp [hcm]⟩, hcn⟩
    case isFalse h' =>
      obtain ⟨c, hc, hcn⟩ := List.any_eq_true.mp hany
      exact List.any_eq_true.mpr ⟨c, List.mem_append.mpr (Or.inl hc), hcn⟩
  · intro c hc hcn
    unfold dfSetCol at hc
    split at hc
    · obtain ⟨c', hc', he⟩ := List.mem_map.mp hc
      by_cases h' : (c'.1 == m) = true
      · rw [if_pos h'] at he
        rw [← he] at hcn
        exact absurd hcn hmn
      · rw [if_neg h'] at he
        rw [← he]
        rw [← he] at hcn
        exact hval c' hc' hcn
    · rcases List.mem_append.mp hc with h' | h'
      · exact hval c h' hcn
      · simp only [List.mem_singleton] at h'
        rw [h'] at hcn
        exact absurd hcn hmn

theorem setCol_of_allCol (t : Table) (n : String) (vs : List CellVal)
    (h : AllCol t n vs) : dfSetCol t n vs = t := by
  obtain ⟨hany, hval⟩ := h
  unfold dfSetCol
  rw [if_pos hany]
  have hid : ∀ c ∈ t, (if (c.1 == n) = true then (n, vs) else c) = c := by
    intro c hc
    by_cases h' : (c.1 == n) = true
    · rw [if_pos h']
      have h1 : c.1 = n := by simpa using h'
      have h2 : c.2 = vs := hval c hc h1
      obtain ⟨cn, cv⟩ := c
      simp only at h1 h2
      rw [h1, h2]
    · rw [if_neg h']
  rw [List.map_congr_left hid, List.map_id']

theorem applyCombine_length (t : Table) (cols : List String) :
    (applyCombine t cols).length = nRows t := by
  simp [applyCombine]

theorem nRows_setCol (t : Table) (n : String) (v : List CellVal)
    (hlen : v.length = nRows t) : nRows (dfSetCol t n v) = nRows t := by
  cases t with
  | nil =>
    simp only [dfSetCol, List.any_nil, List.nil_append]
    rw [if_neg (by simp)]
    simpa [nRows] using hlen
  | cons c cs =>
    unfold dfSetCol
    split
    · simp only [List.map_cons]
      by_cases hc : (c.1 == n) = true
      · rw [if_pos hc]
        simp only [nRows] at hlen ⊢
        exact hlen
      · rw [if_neg hc]
        simp [nRows]
    · simp [nRows]

theorem rowAt_find?_setCol_ne (t : Table) (m : String) (v : List CellVal)
    (n : String) (hnm : n ≠ m) (i : Nat) :
    (rowAt (dfSetCol t m v) i).find? (fun c => c.1 == n) =
      (rowAt t i).find? (fun c => c.1 == n) := by
  rw [rowAt_find?, rowAt_find?, find?_setCol_ne t m v n hnm]

theorem rowSelectStrs_congr (row row' : List (String × CellVal)) (ns : List String)
    (h : ∀ n ∈ ns, row.find? (fun c => c.1 == n) = row'.find? (fun c => c.1 == n)) :
    rowSelectStrs row ns = rowSelectStrs row' ns := by
  induction ns with
  | nil => rfl
  | cons m ms ih =>
    simp only [rowSelectStrs]
    rw [h m (List.mem_cons_self m ms), ih (fun n hn => h n (List.mem_cons_of_mem m hn))]

theorem combine_congr (row row' : List (String × CellVal)) (ns : List String)
    (h : ∀ n ∈ ns, row.find? (fun c => c.1 == n) = row'.find? (fun c => c.1 == n)) :
    combine_column_values row ns = combine_column_values row' ns := by
  unfold combine_column_values
  rw [rowSelectStrs_congr row row' ns h]

/-- Rerunning the in-place mutation on an already-mutated table changes
nothing, provided the grouping lists do not name `client_info` or (for the
client list) `product_info`: every column assignment rewrites the values
already present. -/
theorem mutTable_idem (t : Table) (cl pr : List String) (qlNum qsNum : List CellVal)
    (hcl1 : "client_info" ∉ cl) (hcl2 : "product_info" ∉ cl)
    (hpr2 : "product_info" ∉ pr) :
    mutTable (mutTable t cl pr qlNum qsNum) cl pr qlNum qsNum =
      mutTable t cl pr qlNum qsNum := by
  simp only [mutTable]
  generalize hT1 : dfSetCol t "quantity_long_sum" qlNum = T1
  generalize hT2 : dfSetCol T1 "quantity_short_sum" qsNum = T2
  generalize hC : applyCombine T2 cl = C
  generalize hT3 : dfSetCol T2 "client_info" C = T3
  generalize hD : applyCombine T3 pr = D
  generalize hT4 : dfSetCol T3 "product_info" D = T4
  have f1 : AllCol T1 "quantity_long_sum" qlNum := hT1 ▸ allCol_setCol_self t _ _
  have f2 : AllCol T2 "quantity_long_sum" qlNum :=
    hT2 ▸ allCol_setCol_ne T1 "quantity_short_sum" qsNum _ _ (by decide) f1
  have f3 : AllCol T3 "quantity_long_sum" qlNum :=
    hT3 ▸ allCol_setCol_ne T2 "client_info" C _ _ (by decide) f2
  have f4 : AllCol T4 "quantity_long_sum" qlNum :=
    hT4 ▸ allCol_setCol_ne T3 "product_info" D _ _ (by decide) f3
  rw [setCol_of_allCol T4 _ _ f4]
  have g1 : AllCol T2 "quantity_short_sum" qsNum := hT2 ▸ allCol_setCol_self T1 _ _
  have g2 : AllCol T3 "quantity_short_sum" qsNum :=
    hT3 ▸ allCol_setCol_ne T2 "client_info" C _ _ (by decide) g1
  have g3 : AllCol T4 "quantity_short_sum" qsNum :=
    hT4 ▸ allCol_setCol_ne T3 "product_info" D _ _ (by decide) g2
  rw [setCol_of_allCol T4 _ _ g3]
  have hn3 : nRows T3 = nRows T2 := by
    rw [← hT3]
    exact nRows_setCol T2 "client_info" C (by rw [← hC]; exact applyCombine_length T2 cl)
  have hn4 : nRows T4 = nRows T3 := by
    rw [← hT4]
    exact nRows_setCol T3 "product_info" D (by rw [← hD]; exact applyCombine_length T3 pr)
  have stepC : applyCombine T4 cl = C := by
    rw [← hC]
    unfold applyCombine
    rw [hn4, hn3]
    apply List.map_congr_left
    intro i hi
    apply combine_congr
    intro n hn
    have hne_ci : n ≠ "client_info" := fun hh => hcl1 (hh ▸ hn)
    have hne_pi : n ≠ "product_info" := fun hh => hcl2 (hh ▸ hn)
    rw [← hT4, rowAt_find?_setCol_ne T3 "product_info" D n hne_pi i, ← hT3,
      rowAt_find?_setCol_ne T2 "client_info" C n hne_ci i]
  rw [stepC]
  have c1 : AllCol T3 "client_info" C := hT3 ▸ allCol_setCol_self T2 _ _
  have c2 : AllCol T4 "client_info" C :=
    hT4 ▸ allCol_setCol_ne T3 "product_info" D _ _ (by decide) c1
  rw [setCol_of_allCol T4 _ _ c2]
  have stepD : applyCombine T4 pr = D := by
    rw [← hD]
    unfold applyCombine
    rw [hn4]
    apply List.map_congr_left
    intro i hi
    apply combine_congr
    intro n hn
    have hne_pi : n ≠ "product_info" := fun hh => hpr2 (hh ▸ hn)
    rw [← hT4, rowAt_find?_setCol_ne T3 "product_info" D n hne_pi i]
  rw [stepD]
  have d1 : AllCol T4 "product_info" D := hT4 ▸ allCol_setCol_self T3 _ _
  exact setCol_of_allCol T4 _ _ d1

theorem dfGetCol_mutTable_ne (t : Table) (cl pr : List String)
    (qlNum qsNum : List CellVal) (n : String)
    (h1 : n ≠ "quantity_long_sum") (h2 : n ≠ "quantity_short_sum")
    (h3 : n ≠ "client_info") (h4 : n ≠ "product_info") :
    dfGetCol (mutTable t cl pr qlNum qsNum) n = dfGetCol t n := by
  simp only [mutTable]
  rw [dfGetCol_setCol_ne _ "product_info" _ n h4,
      dfGetCol_setCol_ne _ "client_info" _ n h3,
      dfGetCol_setCol_ne _ "quantity_short_sum" _ n h2,
      dfGetCol_setCol_ne _ "quantity_long_sum" _ n h1]

/-- Claim C8, amended: calling the aggregation a second time on the table
the first call mutated yields the same mutated table and the same Grouped
Summary Table, provided the grouping-field lists do not name the derived
key columns (`client_info` in the client list; `product_info` in either
list).  Without that proviso idempotence fails — see the counterexample. -/
theorem C8_amended_idempotent (t : Table) (cl pr : List String) (t1 : Table)
    (g1 : List GroupedRow)
    (hcl1 : "client_info" ∉ cl) (hcl2 : "product_info" ∉ cl)
    (hpr2 : "product_info" ∉ pr)
    (h : calculate_total_transaction t cl pr = some (t1, g1)) :
    calculate_total_transaction t1 cl pr = some (t1, g1) := by
  obtain ⟨qlCol, qlNum, qsCol, qsNum, hql, hqlN, hqs, hqsN, ht', hg⟩ := calc_inv h
  subst ht'
  subst hg
  have hgetQL : dfGetCol (mutTable t cl pr qlNum qsNum) "quantity_long" = some qlCol := by
    rw [dfGetCol_mutTable_ne t cl pr qlNum qsNum "quantity_long" (by decide) (by decide)
      (by decide) (by decide)]
    exact hql
  have hqs' : dfGetCol t "quantity_short" = some qsCol := by
    rw [dfGetCol_setCol_ne t "quantity_long_sum" qlNum "quantity_short" (by decide)] at hqs
    exact hqs
  have hmutql : dfSetCol (mutTable t cl pr qlNum qsNum) "quantity_long_sum" qlNum =
      mutTable t cl pr qlNum qsNum := by
    apply setCol_of_allCol
    simp only [mutTable]
    exact allCol_setCol_ne _ "product_info" _ _ _ (by decide)
      (allCol_setCol_ne _ "client_info" _ _ _ (by decide)
        (allCol_setCol_ne _ "quantity_short_sum" _ _ _ (by decide)
          (allCol_setCol_self t "quantity_long_sum" qlNum)))
  have hgetQS : dfGetCol (dfSetCol (mutTable t cl pr qlNum qsNum) "quantity_long_sum"
      qlNum) "quantity_short" = some qsCol := by
    rw [hmutql, dfGetCol_mutTable_ne t cl pr qlNum qsNum "quantity_short" (by decide)
      (by decide) (by decide) (by decide)]
    exact hqs'
  unfold calculate_total_transaction
  simp only [hgetQL, hqlN, hgetQS, hqsN]
  rw [mutTable_idem t cl pr qlNum qsNum hcl1 hcl2 hpr2]

/-- Claim C8 as universally stated is false: with client list
`["product_info"]` and product list `["f"]`, the first call (on a table
without a `product_info` column) groups nothing, while the second call on
the same — now mutated — table sees the `product_info` column the first
call created, derives defined keys, and emits one group. -/
theorem C8_counterexample :
    (calculate_total_transaction exC8Table ["product_info"] ["f"]).map
      (fun r => r.2) = some [] ∧
    ((calculate_total_transaction exC8Table ["product_info"] ["f"]).bind
        (fun r => calculate_total_transaction r.1 ["product_info"] ["f"])).map
      (fun r => r.2) =
      some [{ product_info := "A", client_info := "A", quantity_long_sum := 1,
              quantity_short_sum := 0, total_transaction_amount := 1 }] := by
  constructor <;> decide

/-- Witness for C8's amended statement: rerunning aggregation on the mutated
example table reproduces the same table and grouped output. -/
theorem C8_witness :
    calculate_total_transaction exAggMut ["client"] ["product"] =
      some (exAggMut, exAggGrouped) :=
  C8_amended_idempotent exAggTable ["client"] ["product"] exAggMut exAggGrouped
    (by decide) (by decide) (by decide) (by decide)

/-! ## C7: round trip through a constructed fixed-width line -/

theorem padTruncChars_length (cs : List Char) (w : Nat) :
    (padTruncChars cs w).length = w := by
  simp only [padTruncChars, List.length_append, List.length_take, List.length_replicate]
  omega

theorem dropWhile_replicate_append (k : Nat) (xs : List Char) :
    List.dropWhile Char.isWhitespace (List.replicate k ' ' ++ xs) =
      List.dropWhile Char.isWhitespace xs := by
  induction k with
  | zero => rfl
  | succ j ih =>
    simp only [List.replicate_succ, List.cons_append, List.dropWhile_cons]
    rw [if_pos (by decide)]
    exact ih

theorem trimChars_append_spaces (cs : List Char) (k : Nat) :
    trimChars (cs ++ List.replicate k ' ') = trimChars cs := by
  unfold trimChars
  rw [List.dropWhile_append]
  by_cases ha : (cs.dropWhile Char.isWhitespace).isEmpty = true
  · rw [if_pos ha]
    have h1 : List.dropWhile Char.isWhitespace (List.replicate k ' ') = [] := by
      have h0 := dropWhile_replicate_append k []
      rw [List.append_nil] at h0
      exact h0
    have h2 : cs.dropWhile Char.isWhitespace = [] := List.isEmpty_iff.mp ha
    rw [h1, h2]
  · rw [if_neg ha]
    rw [List.reverse_append, List.reverse_replicate, dropWhile_replicate_append]

theorem trim_padTrunc_of_le (v : String) (w : Nat) (hle : v.data.length ≤ w) :
    strTrim (padTrunc v w) = strTrim v := by
  unfold strTrim padTrunc padTruncChars
  rw [show (String.mk (v.data.take w ++ List.replicate (w - v.data.length) ' ')).data =
    v.data.take w ++ List.replicate (w - v.data.length) ' ' from rfl]
  rw [List.take_of_length_le hle, trimChars_append_spaces]

theorem padTruncChars_no_newline (cs : List Char) (w : Nat) (h : '\n' ∉ cs) :
    '\n' ∉ padTruncChars cs w := by
  unfold padTruncChars
  intro hmem
  rcases List.mem_append.mp hmem with h' | h'
  · exact h (List.mem_of_mem_take h')
  · exact absurd (List.eq_of_mem_replicate h') (by decide)

theorem mkLine_no_newline (fc : List (String × Nat)) : ∀ (vals : List String),
    (∀ v ∈ vals, '\n' ∉ v.data) → '\n' ∉ (mkLine fc vals).data := by
  induction fc with
  | nil =>
    intro vals h
    cases vals with
    | nil =>
      show '\n' ∉ ("" : String).data
      decide
    | cons v vs =>
      show '\n' ∉ ("" : String).data
      decide
  | cons f fc ih =>
    intro vals h
    cases vals with
    | nil =>
      obtain ⟨n, w⟩ := f
      show '\n' ∉ ("" : String).data
      decide
    | cons v vs =>
      obtain ⟨n, w⟩ := f
      simp only [mkLine, String.data_append]
      intro hmem
      rcases List.mem_append.mp hmem with h' | h'
      · exact padTruncChars_no_newline v.data w (h v (by simp)) h'
      · exact ih vs (fun u hu => h u (by simp [hu])) h'

theorem parseCols_mkLine :
    ∀ (fc : List (String × Nat)) (pre : List Char) (vals : List String),
      vals.length = fc.length →
      parseCols [String.mk (pre ++ (mkLine fc vals).data)] fc pre.length =
        roundTripCols fc vals := by
  intro fc
  induction fc with
  | nil =>
    intro pre vals h
    cases vals <;> simp [parseCols, roundTripCols]
  | cons f fc ih =>
    intro pre vals h
    obtain ⟨n, w⟩ := f
    cases vals with
    | nil => cases h
    | cons v vs =>
      simp only [mkLine, roundTripCols, parseCols, List.map_cons, List.map_nil]
      have hdata : (padTrunc v w ++ mkLine fc vs).data =
          padTruncChars v.data w ++ (mkLine fc vs).data := by
        rw [String.data_append]
        rfl
      rw [hdata]
      have hslice : strSlice (String.mk (pre ++ (padTruncChars v.data w ++
          (mkLine fc vs).data))) pre.length w = padTrunc v w := by
        unfold strSlice padTrunc
        rw [show (String.mk (pre ++ (padTruncChars v.data w ++
          (mkLine fc vs).data))).data = pre ++ (padTruncChars v.data w ++
          (mkLine fc vs).data) from rfl]
        rw [List.drop_left, List.take_left' (padTruncChars_length v.data w)]
      rw [hslice]
      have hassoc : pre ++ (padTruncChars v.data w ++ (mkLine fc vs).data) =
          (pre ++ padTruncChars v.data w) ++ (mkLine fc vs).data := by
        rw [List.append_assoc]
      rw [hassoc]
      have hlen2 : pre.length + w = (pre ++ padTruncChars v.data w).length := by
        rw [List.length_append, padTruncChars_length]
      rw [hlen2]
      have hvs : vs.length = fc.length := by simpa using h
      rw [ih (pre ++ padTruncChars v.data w) vs hvs]

/-- Claim C7: a line built by padding (with spaces) or truncating each value
to its field's configured width parses back, field by field, to the
whitespace-trimmed content of each field slot; when a value fits within its
width (pure padding), that is exactly the trimmed value itself. -/
theorem C7_round_trip (fc : List (String × Nat)) (vals : List String)
    (hlen : vals.length = fc.length) (hnl : ∀ v ∈ vals, '\n' ∉ v.data) :
    input_text_to_df (mkLine fc vals) fc = roundTripCols fc vals ∧
    ∀ v w, v.data.length ≤ w → strTrim (padTrunc v w) = strTrim v := by
  constructor
  · unfold input_text_to_df
    have hsplit : splitNL (mkLine fc vals) = [mkLine fc vals] := by
      unfold splitNL
      rw [splitNLChars_no_newline _ (mkLine_no_newline fc vals hnl)]
      rfl
    rw [hsplit]
    exact parseCols_mkLine fc [] vals hlen
  · intro v w hle
    exact trim_padTrunc_of_le v w hle

/-- Witness for C7 at the spec's scenario-style line. -/
theorem C7_witness :
    input_text_to_df (mkLine [("client", 4), ("quantity_long", 6)] ["C001", "100"])
      [("client", 4), ("quantity_long", 6)] =
      roundTripCols [("client", 4), ("quantity_long", 6)] ["C001", "100"] ∧
    strTrim (padTrunc "100" 6) = strTrim "100" :=
  ⟨(C7_round_trip [("client", 4), ("quantity_long", 6)] ["C001", "100"] (by decide)
      (by decide)).1,
   (C7_round_trip [("client", 4), ("quantity_long", 6)] ["C001", "100"] (by decide)
      (by decide)).2 "100" 6 (by decide)⟩
